import Mathlib

/-!
Verification of the PeopleSoft ExecuteQuery client (`psft_client.py`).

The development shallowly embeds the client's three components:

* the query URL builder (`PeopleSoftClient._build_executequery_url`,
  together with the `base_url.rstrip("/")` normalisation done by
  `PeopleSoftClient.__init__`);
* the response transport of `execute_query` (cookie / basic-auth
  attachment and the `raise_for_status` + `RuntimeError` wrapping);
* the XML row extractor `parse_executequery_xml`.

Python strings become `String`, `None`-able strings become
`Option String`, the ordered prompt dict becomes an ordered list of
(name, value) pairs, the ElementTree node type becomes the inductive
`XmlElem` (ElementTree spells a namespaced tag as the namespace URI in
braces followed by the local name), and raising an exception becomes
`Except` / `Option`.
-/

/-- Python `s.rstrip("/")`: remove every trailing `'/'` character. -/
def pyRstripSlash (s : String) : String :=
  String.mk ((s.data.reverse.dropWhile (fun c => c == '/')).reverse)

/-- Python truthiness guard `(x or "")` applied to an optional string:
`None` and the empty string collapse to `""`, everything else is kept. -/
def pyOr (v : Option String) : String :=
  match v with
  | none => ""
  | some s => if s.isEmpty then "" else s

/-- Python `",".join(l)`: the elements of `l` interleaved with commas. -/
def joinComma : List String → String
  | [] => ""
  | [x] => x
  | x :: y :: ys => x ++ "," ++ joinComma (y :: ys)

/-- Splitting a character list at every comma (auxiliary accumulator form);
used only to state alignment properties about the comma-joined URL
parameters, mirroring how the remote system re-splits them. -/
def splitCommasAux : List Char → List Char → List String
  | [], acc => [String.mk acc.reverse]
  | c :: cs, acc =>
    if c == ',' then String.mk acc.reverse :: splitCommasAux cs []
    else splitCommasAux cs (c :: acc)

/-- Number and content of the comma-separated fields of a string. -/
def splitCommas (s : String) : List String :=
  splitCommasAux s.data []

/-- Client state stored by `PeopleSoftClient.__init__`: the normalised
base URL, the optional Basic-Auth credential pair and the optional
`PS_TOKEN` session token (`verify` and `timeout` do not affect any
claim and are omitted). -/
structure PeopleSoftClient where
  base_url : String
  auth : Option (String × String)
  ps_token : Option String

/-- Constructor `PeopleSoftClient.__init__`: stores
`base_url.rstrip("/")` and the credentials unchanged. -/
def PeopleSoftClient.init (base_url : String) (auth : Option (String × String))
    (ps_token : Option String) : PeopleSoftClient :=
  ⟨pyRstripSlash base_url, auth, ps_token⟩

/-- Path part of `_build_executequery_url`:
`f"{self.base_url}/{security}/{query_name}/{output_path}".rstrip("/")`. -/
def build_path (base_url security query_name output_path : String) : String :=
  pyRstripSlash (base_url ++ "/" ++ security ++ "/" ++ query_name ++ "/" ++ output_path)

/-- Local `prompt_names` of `_build_executequery_url`:
`",".join(prompts.keys())`. -/
def prompt_names (prompts : List (String × Option String)) : String :=
  joinComma (prompts.map (fun p => p.1))

/-- Local `prompt_values` of `_build_executequery_url`:
`",".join((prompts[k] or "") for k in prompts.keys())`. -/
def prompt_values (prompts : List (String × Option String)) : String :=
  joinComma (prompts.map (fun p => pyOr p.2))

/-- The URL built by `PeopleSoftClient._build_executequery_url`.  The
ordered dict `prompts` is embedded as the ordered list of its
(name, value) items. -/
def build_executequery_url (c : PeopleSoftClient) (query_name : String)
    (prompts : List (String × Option String)) (maxrows : Nat)
    (isconnectedquery security output_path : String) : String :=
  let path := build_path c.base_url security query_name output_path
  let query_str :=
    "isconnectedquery=" ++ isconnectedquery
      ++ "&maxrows=" ++ toString maxrows
      ++ "&prompt_uniquepromptname=" ++ prompt_names prompts
      ++ "&prompt_fieldvalue=" ++ prompt_values prompts
  path ++ "?" ++ query_str

/-- The HTTP response seen by `execute_query`, reduced to the two fields
the function inspects. -/
structure HttpResponse where
  status_code : Nat
  text : String

/-- Modelled from the library contract of `requests`:
`Response.raise_for_status()` raises `HTTPError` exactly for status
codes 400–599 (4xx client errors and 5xx server errors) and is a no-op
for every other status. -/
def raise_for_status (status : Nat) : Bool :=
  (400 ≤ status && status < 500) || (500 ≤ status && status < 600)

/-- Body handling of `execute_query`: wrap a `raise_for_status` failure
in `RuntimeError(f"PeopleSoft ExecuteQuery call failed: {status}\n{text}")`,
otherwise return `resp.text` unchanged. -/
def execute_query_result (resp : HttpResponse) : Except String String :=
  if raise_for_status resp.status_code then
    Except.error ("PeopleSoft ExecuteQuery call failed: "
      ++ toString resp.status_code ++ "\n" ++ resp.text)
  else
    Except.ok resp.text

/-- Authentication data attached to the single GET request issued by
`execute_query`. -/
structure HttpRequest where
  url : String
  auth : Option (String × String)
  cookies : List (String × String)

/-- Cookie dict built by `execute_query`: `cookies = {}` then
`if self.ps_token: cookies["PS_TOKEN"] = self.ps_token` — a Python
truthiness test, so `None` and `""` both leave the dict empty. -/
def execute_query_cookies (c : PeopleSoftClient) : List (String × String) :=
  match c.ps_token with
  | none => []
  | some t => if t.isEmpty then [] else [("PS_TOKEN", t)]

/-- The request issued by `execute_query`: the built URL, `auth=self.auth`
passed straight to `requests.get`, and the cookie dict above. -/
def execute_query_request (c : PeopleSoftClient) (url : String) : HttpRequest :=
  ⟨url, c.auth, execute_query_cookies c⟩

/-- An ElementTree element: tag (a namespaced tag is rendered by
ElementTree as the namespace URI wrapped in braces, then the local
name), optional text, and the list of child elements. -/
inductive XmlElem : Type where
  | mk : String → Option String → List XmlElem → XmlElem

/-- Tag of an element. -/
def XmlElem.tag : XmlElem → String
  | .mk t _ _ => t

/-- Text of an element (`None` when the element has no text node). -/
def XmlElem.text : XmlElem → Option String
  | .mk _ tx _ => tx

/-- Immediate children of an element (`list(node)` in ElementTree). -/
def XmlElem.children : XmlElem → List XmlElem
  | .mk _ _ cs => cs

mutual

/-- ElementTree `root.iter()`: the element itself followed by all
descendants, in document order. -/
def XmlElem.iter : XmlElem → List XmlElem
  | .mk t tx cs => .mk t tx cs :: iterChildren cs

/-- Concatenated `iter` traversals of a child list, in order. -/
def iterChildren : List XmlElem → List XmlElem
  | [] => []
  | c :: cs => c.iter ++ iterChildren cs

end

/-- Helper `strip_ns` of `parse_executequery_xml`:
`tag.split("}", 1)[1] if "}" in tag else tag`. -/
def strip_ns (tag : String) : String :=
  if '\x7d' ∈ tag.data then
    String.mk ((tag.data.dropWhile (fun c => c != '\x7d')).tail)
  else tag

/-- One assignment `row_dict[field_name] = value` on the Python dict,
embedded as an association list that keeps first-insertion key order
and overwrites the value in place on a repeated key. -/
def dictInsert (d : List (String × String)) (k v : String) : List (String × String) :=
  if d.any (fun p => p.1 == k) then
    d.map (fun p => if p.1 == k then (k, v) else p)
  else d ++ [(k, v)]

/-- Dict lookup on the association-list embedding. -/
def dictGet (d : List (String × String)) (k : String) : Option String :=
  (d.find? (fun p => p.1 == k)).map (fun p => p.2)

/-- Python whitespace as stripped by `str.strip()` (ASCII range). -/
def isPySpace (c : Char) : Bool :=
  c == ' ' || c == '\t' || c == '\n' || c == '\r' || c == '\x0b' || c == '\x0c'

/-- Python `s.strip()`: remove leading and trailing whitespace. -/
def pyStrip (s : String) : String :=
  String.mk (((s.data.dropWhile isPySpace).reverse.dropWhile isPySpace).reverse)

/-- Field value extracted for one child: `(child.text or "").strip()`. -/
def childValue (c : XmlElem) : String :=
  pyStrip (pyOr c.text)

/-- Row dict built for one matched `row` element: iterate the immediate
children, assigning `row_dict[strip_ns(child.tag)] = (child.text or "").strip()`. -/
def rowOf (node : XmlElem) : List (String × String) :=
  node.children.foldl (fun d c => dictInsert d (strip_ns c.tag) (childValue c)) []

/-- Row list built by `parse_executequery_xml` from an already-parsed
tree: walk `root.iter()` and append a row dict for every element whose
namespace-stripped tag is `"row"`. -/
def parse_rows (root : XmlElem) : List (List (String × String)) :=
  root.iter.foldl
    (fun rows node => if strip_ns node.tag == "row" then rows ++ [rowOf node] else rows)
    []

/-- Full `parse_executequery_xml`.  Modelled from the spec: the call
`ET.fromstring(xml_text)` (library code, not part of this repository)
returns the root element for well-formed XML and raises `ParseError`
otherwise; its outcome is embedded as an `Option XmlElem`.  The
function itself installs no handler, so a parse failure propagates and
no row list — partial or otherwise — is produced. -/
def parse_executequery_xml : Option XmlElem → Option (List (List (String × String)))
  | none => none
  | some root => some (parse_rows root)

/-- Synthetic namespaced document from the spec's round-trip property:
a namespaced root holding two `row` elements with fields `A` and `B`
(ElementTree renders the namespace as the URI in braces). -/
def sampleDoc : XmlElem :=
  XmlElem.mk "\x7burn:x\x7dquery" none
    [XmlElem.mk "\x7burn:x\x7drow" none
      [XmlElem.mk "\x7burn:x\x7dA" (some "1") [],
       XmlElem.mk "\x7burn:x\x7dB" (some "2") []],
     XmlElem.mk "\x7burn:x\x7drow" none
      [XmlElem.mk "\x7burn:x\x7dA" (some "3") [],
       XmlElem.mk "\x7burn:x\x7dB" (some "4") []]]

/-- Row element whose two children share the local name `F`. -/
def dupFieldRow : XmlElem :=
  XmlElem.mk "row" none
    [XmlElem.mk "F" (some "1") [], XmlElem.mk "F" (some "2") []]

/-- Well-formed document with no `row` element anywhere. -/
def rowlessDoc : XmlElem :=
  XmlElem.mk "query" none [XmlElem.mk "item" (some "1") []]

/-! ### String-level helper lemmas -/

lemma pyOr_eq_getD (v : Option String) : pyOr v = v.getD "" := by
  cases v with
  | none => rfl
  | some s =>
    simp only [pyOr, Option.getD_some]
    split
    · next h => exact ((String.isEmpty_iff s).mp h).symm
    · rfl

lemma dropWhile_slash_replicate (k : Nat) (l : List Char) :
    (List.replicate k '/' ++ l).dropWhile (fun c => c == '/')
      = l.dropWhile (fun c => c == '/') := by
  induction k with
  | zero => rfl
  | succ k ih => simp [List.replicate_succ, ih]

lemma pyRstripSlash_append_slashes (s : String) (k : Nat) :
    pyRstripSlash (s ++ String.mk (List.replicate k '/')) = pyRstripSlash s := by
  unfold pyRstripSlash
  rw [String.data_append]
  show String.mk (((s.data ++ (List.replicate k '/')).reverse.dropWhile _).reverse) = _
  rw [List.reverse_append, List.reverse_replicate, dropWhile_slash_replicate]

lemma head?_dropWhile_false {α : Type} (p : α → Bool) (l : List α) (a : α)
    (h : (l.dropWhile p).head? = some a) : p a = false := by
  induction l with
  | nil => simp [List.dropWhile] at h
  | cons c cs ih =>
    by_cases hc : p c
    · rw [List.dropWhile_cons_of_pos hc] at h
      exact ih h
    · rw [List.dropWhile_cons_of_neg hc] at h
      simp only [List.head?_cons, Option.some.injEq] at h
      subst h
      exact Bool.of_not_eq_true hc

lemma pyRstripSlash_no_trailing (s : String) :
    (pyRstripSlash s).data.getLast? ≠ some '/' := by
  unfold pyRstripSlash
  intro h
  rw [List.getLast?_reverse] at h
  have := head?_dropWhile_false (fun c => c == '/') s.data.reverse '/' h
  simp at this

lemma pyRstripSlash_eq_self (s : String) (h : s.data.getLast? ≠ some '/') :
    pyRstripSlash s = s := by
  unfold pyRstripSlash
  rw [← List.head?_reverse] at h
  cases hrev : s.data.reverse with
  | nil =>
    have hdata : s.data = [] := by simpa using congrArg List.reverse hrev
    simp only [List.dropWhile_nil, List.reverse_nil]
    exact (congrArg String.mk hdata).symm
  | cons c t =>
    rw [hrev] at h
    simp only [List.head?_cons] at h
    have hc : (c == '/') = false := by
      cases hcc : (c == '/') with
      | false => rfl
      | true => exact absurd (congrArg some (eq_of_beq hcc)) h
    rw [List.dropWhile_cons_of_neg (by simp [hc]), ← hrev, List.reverse_reverse]

lemma pyRstripSlash_append_one_slash (s : String) :
    pyRstripSlash (s ++ "/") = pyRstripSlash s := by
  unfold pyRstripSlash
  rw [String.data_append]
  show String.mk (((s.data ++ ['/']).reverse.dropWhile _).reverse) = _
  rw [List.reverse_append]
  simp [List.dropWhile_cons]

lemma string_append_empty (s : String) : s ++ "" = s := by
  apply congrArg String.mk
  show s.data ++ [] = s.data
  simp

/-! ### Comma-join and comma-split lemmas -/

lemma joinComma_data_cons₂ (x y : String) (ys : List String) :
    (joinComma (x :: y :: ys)).data = x.data ++ ',' :: (joinComma (y :: ys)).data := by
  show (x ++ "," ++ joinComma (y :: ys)).data = _
  rw [String.data_append, String.data_append]
  have hc : (",").data = [','] := rfl
  rw [hc, List.append_assoc]
  rfl

lemma splitCommasAux_no_comma (w : List Char) (h : ∀ c ∈ w, c ≠ ',') :
    ∀ cs acc, splitCommasAux (w ++ cs) acc = splitCommasAux cs (w.reverse ++ acc) := by
  induction w with
  | nil => intro cs acc; rfl
  | cons c w ih =>
    intro cs acc
    have hc : c ≠ ',' := h c (List.mem_cons_self c w)
    have hw : ∀ d ∈ w, d ≠ ',' := fun d hd => h d (List.mem_cons_of_mem c hd)
    show splitCommasAux (c :: (w ++ cs)) acc = _
    rw [splitCommasAux]
    simp only [beq_iff_eq, if_neg hc]
    rw [ih hw cs (c :: acc)]
    congr 1
    simp

lemma splitCommas_joinComma (l : List String) (hl : l ≠ [])
    (h : ∀ x ∈ l, ∀ c ∈ x.data, c ≠ ',') :
    splitCommas (joinComma l) = l := by
  induction l with
  | nil => exact absurd rfl hl
  | cons x t ih =>
    cases t with
    | nil =>
      have hx : ∀ c ∈ x.data, c ≠ ',' := h x (List.mem_cons_self x [])
      have h2 := splitCommasAux_no_comma x.data hx [] []
      simp only [List.append_nil] at h2
      show splitCommasAux x.data [] = [x]
      rw [h2]
      show [String.mk x.data.reverse.reverse] = [x]
      rw [List.reverse_reverse]
    | cons y ys =>
      have hx : ∀ c ∈ x.data, c ≠ ',' := h x (List.mem_cons_self x (y :: ys))
      have ht : ∀ z ∈ y :: ys, ∀ c ∈ z.data, c ≠ ',' :=
        fun z hz => h z (List.mem_cons_of_mem x hz)
      show splitCommasAux (joinComma (x :: y :: ys)).data [] = x :: y :: ys
      rw [joinComma_data_cons₂, splitCommasAux_no_comma x.data hx]
      have htail : splitCommas (joinComma (y :: ys)) = y :: ys := ih (by simp) ht
      simp only [splitCommasAux, beq_self_eq_true, if_true, List.append_nil,
        List.reverse_reverse]
      exact congrArg (fun l => x :: l) htail

lemma splitCommas_length_eq (l₁ l₂ : List String) (hlen : l₁.length = l₂.length)
    (h₁ : ∀ x ∈ l₁, ∀ c ∈ x.data, c ≠ ',') (h₂ : ∀ x ∈ l₂, ∀ c ∈ x.data, c ≠ ',') :
    (splitCommas (joinComma l₁)).length = (splitCommas (joinComma l₂)).length := by
  cases l₁ with
  | nil =>
    cases l₂ with
    | nil => rfl
    | cons y ys => simp at hlen
  | cons x xs =>
    cases l₂ with
    | nil => simp at hlen
    | cons y ys =>
      rw [splitCommas_joinComma (x :: xs) (by simp) h₁,
        splitCommas_joinComma (y :: ys) (by simp) h₂]
      exact hlen

/-! ### Claim C1: prompt name and value parameters of the built URL -/

/-- C1: for every ordered prompt set, the URL built by
`_build_executequery_url` (used by `execute_query`) carries a
`prompt_uniquepromptname` parameter equal to the names joined by `","`
in input order and a `prompt_fieldvalue` parameter equal to the values
joined by `","` in the same order, a missing (`None`) or empty value
contributing the empty string at its position — never the word
`"None"`/`"null"`; instantiated on the spec's example prompt set. -/
theorem build_url_prompt_params (c : PeopleSoftClient) (query_name : String)
    (prompts : List (String × Option String)) (maxrows : Nat)
    (isconnectedquery security output_path : String) :
    build_executequery_url c query_name prompts maxrows isconnectedquery security output_path
      = build_path c.base_url security query_name output_path ++ "?"
        ++ ("isconnectedquery=" ++ isconnectedquery
          ++ "&maxrows=" ++ toString maxrows
          ++ "&prompt_uniquepromptname=" ++ joinComma (prompts.map (fun p => p.1))
          ++ "&prompt_fieldvalue=" ++ joinComma (prompts.map (fun p => p.2.getD "")))
    ∧ prompt_values [("VENDOR_ID_OFFSET", none)] = ""
    ∧ build_executequery_url (PeopleSoftClient.init "https://h/ExecuteQuery.v1" none none)
        "Q" [("VENDOR_STATUS", some "I"), ("VENDOR_ID_OFFSET", some "")]
        10 "N" "public" "XMLP/NONFILE"
      = "https://h/ExecuteQuery.v1/public/Q/XMLP/NONFILE?isconnectedquery=N&maxrows=10&prompt_uniquepromptname=VENDOR_STATUS,VENDOR_ID_OFFSET&prompt_fieldvalue=I," := by
  refine ⟨?_, rfl, by decide⟩
  have hv : (fun p : String × Option String => pyOr p.2)
      = (fun p : String × Option String => p.2.getD "") :=
    funext fun p => pyOr_eq_getD p.2
  show build_path c.base_url security query_name output_path ++ "?"
      ++ ("isconnectedquery=" ++ isconnectedquery
        ++ "&maxrows=" ++ toString maxrows
        ++ "&prompt_uniquepromptname=" ++ prompt_names prompts
        ++ "&prompt_fieldvalue=" ++ prompt_values prompts) = _
  rw [prompt_names, prompt_values, hv]

/-! ### Claim C3: positional alignment of the two comma-joined lists -/

/-- C3 counterexample: with the single prompt `("A", "x,y")` the value
list splits into one more comma-separated field than the name list, so
the alignment invariant fails for arbitrary strings. -/
theorem prompt_field_counts_differ_with_comma_value :
    (splitCommas (prompt_names [("A", some "x,y")])).length
      ≠ (splitCommas (prompt_values [("A", some "x,y")])).length := by
  decide

/-- C3 amended: when no prompt name and no (truthiness-normalised)
prompt value contains a comma, the emitted name list and value list
have the same number of comma-separated fields, and for a nonempty
prompt set the fields are exactly the names, respectively the values,
in input order — an empty value still occupying its position. -/
theorem prompt_lists_aligned_when_comma_free (d : List (String × Option String))
    (h : ∀ p ∈ d, (∀ c ∈ p.1.data, c ≠ ',') ∧ (∀ c ∈ (pyOr p.2).data, c ≠ ',')) :
    (splitCommas (prompt_names d)).length = (splitCommas (prompt_values d)).length
    ∧ (d ≠ [] → splitCommas (prompt_names d) = d.map (fun p => p.1)
        ∧ splitCommas (prompt_values d) = d.map (fun p => pyOr p.2)) := by
  have h₁ : ∀ x ∈ d.map (fun p => p.1), ∀ c ∈ x.data, c ≠ ',' := by
    intro x hx
    obtain ⟨p, hp, rfl⟩ := List.mem_map.mp hx
    exact (h p hp).1
  have h₂ : ∀ x ∈ d.map (fun p : String × Option String => pyOr p.2),
      ∀ c ∈ x.data, c ≠ ',' := by
    intro x hx
    obtain ⟨p, hp, rfl⟩ := List.mem_map.mp hx
    exact (h p hp).2
  refine ⟨splitCommas_length_eq _ _ (by simp) h₁ h₂, fun hd => ?_⟩
  have hn : d.map (fun p => p.1) ≠ [] := by simpa using hd
  have hw : d.map (fun p : String × Option String => pyOr p.2) ≠ [] := by simpa using hd
  exact ⟨splitCommas_joinComma _ hn h₁, splitCommas_joinComma _ hw h₂⟩

/-- C3 amended witness: the spec's example prompt set, whose empty
second value yields a trailing empty field. -/
theorem prompt_lists_aligned_when_comma_free_witness :
    splitCommas (prompt_names [("VENDOR_STATUS", some "I"), ("VENDOR_ID_OFFSET", some "")])
        = ["VENDOR_STATUS", "VENDOR_ID_OFFSET"]
    ∧ splitCommas (prompt_values [("VENDOR_STATUS", some "I"), ("VENDOR_ID_OFFSET", some "")])
        = ["I", ""] :=
  (prompt_lists_aligned_when_comma_free
    [("VENDOR_STATUS", some "I"), ("VENDOR_ID_OFFSET", some "")] (by decide)).2 (by decide)

/-! ### Claim C4: path portion of the built URL -/

/-- C4: the path portion is the composition
`base/security/query_name/output_path` with all trailing slashes
removed afterwards; in particular it never ends in `/`, an empty
output path leaves no dangling slash, and the spec's concrete example
path comes out exactly. -/
theorem build_path_spec :
    build_path "https://h/ExecuteQuery.v1" "public" "Q" "XMLP/NONFILE"
        = "https://h/ExecuteQuery.v1/public/Q/XMLP/NONFILE"
    ∧ (∀ b s q o, build_path b s q o
        = pyRstripSlash (b ++ "/" ++ s ++ "/" ++ q ++ "/" ++ o))
    ∧ (∀ b s q, (b ++ "/" ++ s ++ "/" ++ q).data.getLast? ≠ some '/' →
        build_path b s q "" = b ++ "/" ++ s ++ "/" ++ q)
    ∧ (∀ b s q o, (b ++ "/" ++ s ++ "/" ++ q ++ "/" ++ o).data.getLast? ≠ some '/' →
        build_path b s q o = b ++ "/" ++ s ++ "/" ++ q ++ "/" ++ o)
    ∧ (∀ b s q o, (build_path b s q o).data.getLast? ≠ some '/') := by
  refine ⟨by decide, fun b s q o => rfl, fun b s q h => ?_, fun b s q o h => ?_,
    fun b s q o => pyRstripSlash_no_trailing _⟩
  · show pyRstripSlash (b ++ "/" ++ s ++ "/" ++ q ++ "/" ++ "") = _
    rw [string_append_empty, pyRstripSlash_append_one_slash, pyRstripSlash_eq_self _ h]
  · exact pyRstripSlash_eq_self _ h

/-- C4 witness: an empty output path produces no dangling slash. -/
theorem build_path_spec_witness :
    build_path "https://h" "public" "Q" "" = "https://h/public/Q" :=
  build_path_spec.2.2.1 "https://h" "public" "Q" (by decide)

/-! ### Claim C10: trailing slashes on the constructor's base URL -/

/-- C10: `PeopleSoftClient.__init__` strips every trailing `/` from the
supplied base URL, so two clients whose base URLs differ only in
trailing slashes store the same base URL and build character-for-character
identical URLs for the same remaining inputs. -/
theorem base_url_trailing_slash_insensitive (b : String) (k₁ k₂ : Nat)
    (auth : Option (String × String)) (tok : Option String) (query_name : String)
    (prompts : List (String × Option String)) (maxrows : Nat)
    (isconnectedquery security output_path : String) :
    (PeopleSoftClient.init (b ++ String.mk (List.replicate k₁ '/')) auth tok).base_url
      = (PeopleSoftClient.init b auth tok).base_url
    ∧ build_executequery_url
        (PeopleSoftClient.init (b ++ String.mk (List.replicate k₁ '/')) auth tok)
        query_name prompts maxrows isconnectedquery security output_path
      = build_executequery_url
        (PeopleSoftClient.init (b ++ String.mk (List.replicate k₂ '/')) auth tok)
        query_name prompts maxrows isconnectedquery security output_path
    ∧ (PeopleSoftClient.init b auth tok).base_url = pyRstripSlash b
    ∧ (PeopleSoftClient.init b auth tok).base_url.data.getLast? ≠ some '/' := by
  have hcl : ∀ k, PeopleSoftClient.init (b ++ String.mk (List.replicate k '/')) auth tok
      = PeopleSoftClient.init b auth tok := by
    intro k
    show PeopleSoftClient.mk _ _ _ = PeopleSoftClient.mk _ _ _
    rw [pyRstripSlash_append_slashes]
  refine ⟨?_, ?_, rfl, pyRstripSlash_no_trailing b⟩
  · rw [hcl k₁]
  · rw [hcl k₁, hcl k₂]

/-- C10 witness: two and zero trailing slashes give the same stored base URL. -/
theorem base_url_trailing_slash_insensitive_witness :
    (PeopleSoftClient.init ("https://h" ++ String.mk (List.replicate 2 '/')) none none).base_url
      = (PeopleSoftClient.init "https://h" none none).base_url :=
  (base_url_trailing_slash_insensitive "https://h" 2 0 none none "Q" [] 0 "N" "public"
    "X").1

/-! ### Dict-embedding lemmas -/

lemma find?_cons_pos {α : Type} (p : α → Bool) (a : α) (l : List α) (h : p a = true) :
    (a :: l).find? p = some a := by
  simp [List.find?_cons, h]

lemma find?_cons_neg {α : Type} (p : α → Bool) (a : α) (l : List α) (h : p a = false) :
    (a :: l).find? p = l.find? p := by
  simp [List.find?_cons, h]

lemma find?_map_update (d : List (String × String)) (k v k' : String) :
    (d.map (fun p => if p.1 == k then (k, v) else p)).find? (fun p => p.1 == k')
      = if k' = k then (d.find? (fun p => p.1 == k)).map (fun _ => (k, v))
        else d.find? (fun p => p.1 == k') := by
  induction d with
  | nil => by_cases hk : k' = k <;> simp [hk]
  | cons a d ih =>
    rw [List.map_cons]
    by_cases hak : a.1 = k
    · have hhead : (if (a.1 == k) = true then (k, v) else a) = (k, v) :=
        if_pos (by simp [hak])
      rw [hhead]
      by_cases hk : k' = k
      · rw [find?_cons_pos (fun p => p.1 == k') (k, v) _
            (by show (k == k') = true
                rw [hk]
                exact beq_self_eq_true k),
          if_pos hk,
          find?_cons_pos (fun p => p.1 == k) a _ (by show (a.1 == k) = true; simp [hak])]
        simp
      · rw [find?_cons_neg (fun p => p.1 == k') (k, v) _
            (by show (k == k') = false
                exact beq_false_of_ne (fun hh => hk hh.symm)),
          ih, if_neg hk, if_neg hk,
          find?_cons_neg (fun p => p.1 == k') a _
            (by show (a.1 == k') = false
                rw [hak]
                exact beq_false_of_ne (fun hh => hk hh.symm))]
    · have hhead : (if (a.1 == k) = true then (k, v) else a) = a :=
        if_neg (by simp [hak])
      rw [hhead]
      by_cases hac : a.1 = k'
      · by_cases hk : k' = k
        · exact absurd (hk ▸ hac) hak
        · rw [find?_cons_pos (fun p => p.1 == k') a _
              (by show (a.1 == k') = true; simp [hac]),
            if_neg hk,
            find?_cons_pos (fun p => p.1 == k') a _
              (by show (a.1 == k') = true; simp [hac])]
      · rw [find?_cons_neg (fun p => p.1 == k') a _ (beq_false_of_ne hac), ih]
        by_cases hk : k' = k
        · rw [if_pos hk, if_pos hk,
            find?_cons_neg (fun p => p.1 == k) a _ (beq_false_of_ne hak)]
        · rw [if_neg hk, if_neg hk,
            find?_cons_neg (fun p => p.1 == k') a _ (beq_false_of_ne hac)]

lemma find?_append_single (d : List (String × String)) (k v k' : String)
    (h : d.any (fun p => p.1 == k) = false) :
    (d ++ [(k, v)]).find? (fun p => p.1 == k')
      = if k' = k then some (k, v) else d.find? (fun p => p.1 == k') := by
  induction d with
  | nil =>
    rw [List.nil_append]
    by_cases hk : k' = k
    · rw [find?_cons_pos (fun p => p.1 == k') (k, v) _
          (by show (k == k') = true
              rw [hk]
              exact beq_self_eq_true k),
        if_pos hk]
    · rw [find?_cons_neg (fun p => p.1 == k') (k, v) _
          (by show (k == k') = false
              exact beq_false_of_ne (fun hh => hk hh.symm)),
        if_neg hk, List.find?_nil]
  | cons a d ih =>
    simp only [List.any_cons, Bool.or_eq_false_iff] at h
    obtain ⟨ha, hd⟩ := h
    have hak : ¬ a.1 = k := by simpa using ha
    rw [List.cons_append]
    by_cases hac : a.1 = k'
    · by_cases hk : k' = k
      · exact absurd (hk ▸ hac) hak
      · rw [find?_cons_pos (fun p => p.1 == k') a _
            (by show (a.1 == k') = true; simp [hac]),
          if_neg hk,
          find?_cons_pos (fun p => p.1 == k') a _
            (by show (a.1 == k') = true; simp [hac])]
    · rw [find?_cons_neg (fun p => p.1 == k') a _ (beq_false_of_ne hac), ih hd]
      by_cases hk : k' = k
      · rw [if_pos hk, if_pos hk]
      · rw [if_neg hk, if_neg hk,
          find?_cons_neg (fun p => p.1 == k') a _ (beq_false_of_ne hac)]

lemma dictGet_insert (d : List (String × String)) (k v k' : String) :
    dictGet (dictInsert d k v) k' = if k' = k then some v else dictGet d k' := by
  unfold dictInsert dictGet
  by_cases hany : d.any (fun p => p.1 == k) = true
  · rw [if_pos hany, find?_map_update]
    by_cases hk : k' = k
    · rw [if_pos hk, if_pos hk]
      obtain ⟨p, hp, hpk⟩ := List.any_eq_true.mp hany
      cases hfind : d.find? (fun p => p.1 == k) with
      | none => exact absurd hpk (List.find?_eq_none.mp hfind p hp)
      | some q => simp
    · rw [if_neg hk, if_neg hk]
  · have hany' : d.any (fun p => p.1 == k) = false := by
      cases h2 : d.any (fun p => p.1 == k) with
      | false => rfl
      | true => exact absurd h2 hany
    rw [if_neg hany, find?_append_single d k v k' hany']
    by_cases hk : k' = k
    · rw [if_pos hk, if_pos hk]
      rfl
    · rw [if_neg hk, if_neg hk]

/-! ### Row-extraction lemmas -/

lemma dictGet_row_foldl (l : List XmlElem) (d0 : List (String × String)) (k : String) :
    dictGet (l.foldl (fun d c => dictInsert d (strip_ns c.tag) (childValue c)) d0) k
      = Option.or
          (((l.filter (fun c => strip_ns c.tag == k)).getLast?).map childValue)
          (dictGet d0 k) := by
  induction l generalizing d0 with
  | nil => simp
  | cons c l ih =>
    rw [List.foldl_cons, List.filter_cons, ih]
    by_cases hc : strip_ns c.tag = k
    · rw [if_pos (by simp [hc])]
      cases hfl : l.filter (fun x => strip_ns x.tag == k) with
      | nil =>
        rw [dictGet_insert]
        rw [if_pos hc.symm]
        rfl
      | cons f fs =>
        rw [List.getLast?_cons_cons]
        cases hgl : (f :: fs).getLast? with
        | none => simp at hgl
        | some g => rfl
    · rw [if_neg (by simp [hc]), dictGet_insert,
        if_neg (fun hh => hc hh.symm)]

lemma dictGet_rowOf (node : XmlElem) (k : String) :
    dictGet (rowOf node) k
      = ((node.children.filter (fun c => strip_ns c.tag == k)).getLast?).map childValue := by
  unfold rowOf
  rw [dictGet_row_foldl]
  cases ((node.children.filter (fun c => strip_ns c.tag == k)).getLast?).map childValue with
  | none => rfl
  | some v => rfl

lemma foldl_filter_map_append {α β : Type} (p : α → Bool) (f : α → β) (l : List α)
    (acc : List β) :
    l.foldl (fun rows n => if p n then rows ++ [f n] else rows) acc
      = acc ++ (l.filter p).map f := by
  induction l generalizing acc with
  | nil => simp
  | cons a l ih =>
    rw [List.foldl_cons, List.filter_cons]
    by_cases hp : p a = true
    · rw [if_pos hp, if_pos hp, ih, List.map_cons]
      simp
    · rw [if_neg hp, if_neg hp, ih]

lemma parse_rows_eq (root : XmlElem) :
    parse_rows root = (root.iter.filter (fun n => strip_ns n.tag == "row")).map rowOf := by
  unfold parse_rows
  rw [foldl_filter_map_append]
  rfl

lemma dropWhile_ne_append (ch : Char) (l r : List Char) (h : ∀ c ∈ l, c ≠ ch) :
    (l ++ ch :: r).dropWhile (fun c => c != ch) = ch :: r := by
  induction l with
  | nil => simp [List.dropWhile_cons]
  | cons a l ih =>
    have ha : a ≠ ch := h a (List.mem_cons_self a l)
    rw [List.cons_append, List.dropWhile_cons_of_pos (by simp [ha]),
      ih (fun c hc => h c (List.mem_cons_of_mem a hc))]

lemma strip_ns_braced (uri loc : String) (h : ∀ c ∈ uri.data, c ≠ '\x7d') :
    strip_ns ("\x7b" ++ uri ++ "\x7d" ++ loc) = loc := by
  unfold strip_ns
  have hdata : ("\x7b" ++ uri ++ "\x7d" ++ loc).data
      = ('\x7b' :: uri.data) ++ '\x7d' :: loc.data := by
    rw [String.data_append, String.data_append, String.data_append]
    simp
  rw [hdata, if_pos (by simp)]
  have hpre : ∀ c ∈ '\x7b' :: uri.data, c ≠ '\x7d' := by
    intro c hc
    rcases List.mem_cons.mp hc with h1 | h2
    · rw [h1]; decide
    · exact h c h2
  rw [dropWhile_ne_append '\x7d' ('\x7b' :: uri.data) loc.data hpre]
  rfl

/-! ### Claim C5: row matching is by namespace-stripped local name -/

/-- C5: `parse_executequery_xml` treats an element as a row exactly when
its namespace-stripped local name is `row` — the row list is the
`rowOf` image of precisely those elements of the full-document
traversal, one mapping per matched element, at any depth; stripping
removes a brace-wrapped namespace URI whatever it is; and on the
spec's namespaced two-row sample the extractor returns exactly the two
expected mappings. -/
theorem parse_rows_matches_local_name_row :
    (∀ root : XmlElem, parse_rows root
        = (root.iter.filter (fun n => strip_ns n.tag == "row")).map rowOf)
    ∧ (∀ root : XmlElem, (parse_rows root).length
        = root.iter.countP (fun n => strip_ns n.tag == "row"))
    ∧ (∀ uri loc : String, (∀ c ∈ uri.data, c ≠ '\x7d') →
        strip_ns ("\x7b" ++ uri ++ "\x7d" ++ loc) = loc)
    ∧ parse_rows sampleDoc = [[("A", "1"), ("B", "2")], [("A", "3"), ("B", "4")]] := by
  refine ⟨parse_rows_eq, fun root => ?_, strip_ns_braced, by decide⟩
  rw [parse_rows_eq, List.length_map, List.countP_eq_length_filter]

/-- C5 witness: stripping the braced namespace URI `urn:x` from a
namespaced `row` tag leaves the local name `row`. -/
theorem parse_rows_matches_local_name_row_witness :
    strip_ns ("\x7b" ++ "urn:x" ++ "\x7d" ++ "row") = "row" :=
  parse_rows_matches_local_name_row.2.2.1 "urn:x" "row" (by decide)

/-! ### Claim C6: row mappings come from immediate children only -/

/-- C6: a row mapping is built from the row's immediate children only
(pruning grandchildren changes nothing); every child contributes its
namespace-stripped local name as a key — never an absent key; the
value stored for a key is the stripped text of the (last) child of
that name; and whitespace-only or absent text becomes the empty
string. -/
theorem rowOf_child_fields :
    (∀ node : XmlElem, rowOf (XmlElem.mk node.tag node.text
        (node.children.map (fun c => XmlElem.mk c.tag c.text []))) = rowOf node)
    ∧ (∀ (node : XmlElem), ∀ c ∈ node.children,
        ∃ v, dictGet (rowOf node) (strip_ns c.tag) = some v)
    ∧ (∀ (node : XmlElem), ∀ c ∈ node.children,
        (node.children.filter (fun x => strip_ns x.tag == strip_ns c.tag)).getLast?
          = some c →
        dictGet (rowOf node) (strip_ns c.tag) = some (pyStrip (pyOr c.text)))
    ∧ pyStrip (pyOr (some "  \n  ")) = ""
    ∧ pyStrip (pyOr none) = "" := by
  refine ⟨fun node => ?_, fun node c hc => ?_, fun node c hc hlast => ?_, by decide, rfl⟩
  · show ((node.children.map (fun c => XmlElem.mk c.tag c.text [])).foldl
        (fun d c => dictInsert d (strip_ns c.tag) (childValue c)) []) = _
    rw [List.foldl_map]
    rfl
  · rw [dictGet_rowOf]
    have hmem : c ∈ node.children.filter (fun x => strip_ns x.tag == strip_ns c.tag) :=
      List.mem_filter.mpr ⟨hc, beq_self_eq_true (strip_ns c.tag)⟩
    have hne : node.children.filter (fun x => strip_ns x.tag == strip_ns c.tag) ≠ [] :=
      List.ne_nil_of_mem hmem
    cases hgl : (node.children.filter
        (fun x => strip_ns x.tag == strip_ns c.tag)).getLast? with
    | none => exact absurd (List.getLast?_eq_none_iff.mp hgl) hne
    | some g => exact ⟨childValue g, rfl⟩
  · rw [dictGet_rowOf, hlast]
    rfl

/-- C6 witness: in a concrete row a whitespace-only field extracts to
the empty string under its own key. -/
theorem rowOf_child_fields_witness :
    dictGet (rowOf (XmlElem.mk "row" none [XmlElem.mk "A" (some "  \n  ") []])) "A"
      = some "" :=
  rowOf_child_fields.2.2.1 (XmlElem.mk "row" none [XmlElem.mk "A" (some "  \n  ") []])
    (XmlElem.mk "A" (some "  \n  ") []) (List.mem_cons_self _ _) rfl

/-! ### Claim C7: duplicate field names resolve last-write-wins -/

/-- C7: when two or more immediate children of a row share a local
name, the row mapping holds the value of the last such child in
document order, and the extractor treats this as a normal result, not
an error. -/
theorem rowOf_last_write_wins (node : XmlElem) (k : String)
    (h : 2 ≤ (node.children.filter (fun c => strip_ns c.tag == k)).length) :
    ∃ c, (node.children.filter (fun x => strip_ns x.tag == k)).getLast? = some c
      ∧ c ∈ node.children ∧ strip_ns c.tag = k
      ∧ dictGet (rowOf node) k = some (childValue c) := by
  have hne : node.children.filter (fun x => strip_ns x.tag == k) ≠ [] := by
    intro h0
    rw [h0] at h
    simp at h
  cases hgl : (node.children.filter (fun x => strip_ns x.tag == k)).getLast? with
  | none => exact absurd (List.getLast?_eq_none_iff.mp hgl) hne
  | some c =>
    have hcmem : c ∈ node.children.filter (fun x => strip_ns x.tag == k) := by
      obtain ⟨hne2, heq⟩ := List.mem_getLast?_eq_getLast (Option.mem_def.mpr hgl)
      rw [heq]
      exact List.getLast_mem hne2
    obtain ⟨hmem, hpred⟩ := List.mem_filter.mp hcmem
    exact ⟨c, rfl, hmem, by simpa using hpred, by rw [dictGet_rowOf, hgl]; rfl⟩

/-- C7 witness: with two `F` children valued `1` then `2`, the row
mapping holds `2`. -/
theorem rowOf_last_write_wins_witness :
    dictGet (rowOf dupFieldRow) "F" = some "2" := by
  obtain ⟨c, hl, -, -, hv⟩ := rowOf_last_write_wins dupFieldRow "F" (by decide)
  have heval : (dupFieldRow.children.filter (fun x => strip_ns x.tag == "F")).getLast?
      = some (XmlElem.mk "F" (some "2") []) := rfl
  rw [heval] at hl
  rw [← Option.some.inj hl] at hv
  exact hv

/-! ### Claim C8: parse failure propagates; zero rows is not an error -/

/-- C8: a malformed input (no tree from the XML parser) yields the
propagated parse failure and no partial row list, while a well-formed
document with no element of local name `row` yields the empty
sequence, not an error. -/
theorem parse_xml_error_and_empty :
    parse_executequery_xml none = none
    ∧ (∀ root : XmlElem, (∀ e ∈ root.iter, ¬ strip_ns e.tag = "row") →
        parse_executequery_xml (some root) = some []) := by
  refine ⟨rfl, fun root h => ?_⟩
  show some (parse_rows root) = some []
  rw [parse_rows_eq]
  have hfil : root.iter.filter (fun n => strip_ns n.tag == "row") = [] :=
    List.filter_eq_nil_iff.mpr (fun a ha => by simpa using h a ha)
  rw [hfil]
  rfl

/-- C8 witness: a concrete rowless document parses to the empty row
list. -/
theorem parse_xml_error_and_empty_witness :
    parse_executequery_xml (some rowlessDoc) = some [] :=
  parse_xml_error_and_empty.2 rowlessDoc (by decide)

/-! ### Claim C2: status handling of execute_query -/

/-- C2 evaluation: `raise_for_status` (and hence `execute_query`) does
not raise for the non-2xx status 304 — the body is returned — while a
500 raises an error carrying both the code and the body, and a 200
returns the body; the first conjunct exhibits the divergence from the
claim's "any non-2xx status raises". -/
theorem execute_query_returns_body_on_304 :
    raise_for_status 304 = false
    ∧ execute_query_result ⟨304, "not modified"⟩ = Except.ok "not modified"
    ∧ execute_query_result ⟨500, "ORA-12345"⟩
      = Except.error "PeopleSoft ExecuteQuery call failed: 500\nORA-12345"
    ∧ execute_query_result ⟨200, "body"⟩ = Except.ok "body" := by
  refine ⟨rfl, rfl, ?_, rfl⟩
  exact congrArg Except.error (by decide)

/-! ### Claim C9: authentication configuration of the request -/

/-- C9 counterexample: with the session token configured as the empty
string, the request carries no `PS_TOKEN` cookie at all, contradicting
the claim's "including the empty string". -/
theorem empty_ps_token_sends_no_cookie :
    (PeopleSoftClient.init "https://h" none (some "")).ps_token = some ""
    ∧ (execute_query_request (PeopleSoftClient.init "https://h" none (some "")) "u").cookies
      = [] :=
  ⟨rfl, rfl⟩

/-- C9 amended: the configured credential pair is passed through as
Basic-Auth verbatim; a non-empty configured session token is attached
as the single cookie `PS_TOKEN`; a `None` or empty-string token leaves
the cookie dict empty; and with neither credentials nor token the
request is unauthenticated. -/
theorem auth_and_cookie_config (c : PeopleSoftClient) (url : String) :
    (execute_query_request c url).auth = c.auth
    ∧ (∀ t, c.ps_token = some t → ¬ t = "" →
        (execute_query_request c url).cookies = [("PS_TOKEN", t)])
    ∧ (c.ps_token = none → (execute_query_request c url).cookies = [])
    ∧ (c.ps_token = some "" → (execute_query_request c url).cookies = [])
    ∧ (c.auth = none → c.ps_token = none →
        (execute_query_request c url).auth = none
        ∧ (execute_query_request c url).cookies = []) := by
  refine ⟨rfl, fun t ht hne => ?_, fun h0 => ?_, fun h0 => ?_, fun ha h0 => ⟨ha, ?_⟩⟩
  · show execute_query_cookies c = _
    unfold execute_query_cookies
    rw [ht]
    show (if t.isEmpty then [] else [("PS_TOKEN", t)]) = [("PS_TOKEN", t)]
    rw [if_neg (fun hemp => hne ((String.isEmpty_iff t).mp hemp))]
  · show execute_query_cookies c = []
    unfold execute_query_cookies
    rw [h0]
  · show execute_query_cookies c = []
    unfold execute_query_cookies
    rw [h0]
    rfl
  · show execute_query_cookies c = []
    unfold execute_query_cookies
    rw [h0]

/-- C9 amended witness: a non-empty token is sent as the `PS_TOKEN`
cookie. -/
theorem auth_and_cookie_config_witness :
    (execute_query_request (PeopleSoftClient.init "https://h" none (some "tok")) "u").cookies
      = [("PS_TOKEN", "tok")] :=
  (auth_and_cookie_config (PeopleSoftClient.init "https://h" none (some "tok")) "u").2.1
    "tok" rfl (by decide)
